import Mathlib

/-!
Verification of the natural-language command-interpretation pipeline of the
smartassist repository.

Embedding conventions:
* JavaScript `Date` values are modelled as `Int` milliseconds since an epoch
  whose day 0 is a Thursday (as for the Unix epoch), in a fixed-offset local
  time zone with no DST.  Under this model `setMinutes(getMinutes()+n)` is
  `+ n*60000`, `setDate(getDate()+n)` is `+ n*86400000`, and
  `setHours(h,m,0,0)` replaces the time of day (with JS overflow semantics,
  since overflowing hours simply extend past the day start).
* JavaScript regular expressions used by the source are compiled by hand into
  leftmost-match scanners over the list of characters of the lower-cased
  input, reproducing the ordered-alternation and greedy semantics of each
  concrete pattern.
* Exceptions are modelled with `Except String`; a total Lean function models
  a JS function that cannot throw.
-/

namespace TimeParser

/-- Milliseconds per minute. -/
def msPerMinute : Int := 60000
/-- Milliseconds per hour. -/
def msPerHour : Int := 3600000
/-- Milliseconds per day. -/
def msPerDay : Int := 86400000

/-- Local time-of-day reset: JS `d.setHours(h, m, 0, 0)` in the fixed-offset
model (day 0 of the timeline is a Thursday).  Overflowing `h` extends past the
start of the day exactly as JS date normalization does. -/
def setHM (t : Int) (h m : Nat) : Int :=
  (t / msPerDay) * msPerDay + (h : Int) * msPerHour + (m : Int) * msPerMinute

/-- JS `d.getDay()` (0 = Sunday): day 0 of the timeline is a Thursday (= 4). -/
def getDay (t : Int) : Int :=
  (t / msPerDay + 4) % 7

/-- JS `\s` on the ASCII fragment relevant to this code base. -/
def isWs (c : Char) : Bool :=
  c = ' ' || c = '\t' || c = '\n' || c = '\r'

/-- Boolean list-prefix test (used to compile regex literal alternatives). -/
def isPre : List Char → List Char → Bool
  | [], _ => true
  | _ :: _, [] => false
  | p :: ps, c :: cs => p == c && isPre ps cs

/-- JS `String.prototype.includes` over character lists. -/
def containsSub : List Char → List Char → Bool
  | [], pat => pat.isEmpty
  | c :: t, pat => isPre pat (c :: t) || containsSub t pat

/-- `text.toLowerCase()` (ASCII, which covers every pattern in the source). -/
def lower (s : String) : String := String.mk (s.toList.map Char.toLower)

/-- `parseInt` on a nonempty run of decimal digits. -/
def digitsToNat (ds : List Char) : Nat :=
  ds.foldl (fun n c => n * 10 + (c.toNat - 48)) 0

/-- Result of `timeParser.js`'s `parseTimeExpression`:
`{ date: Date|null, matched: string|null }`. -/
structure ParsedTime where
  date : Option Int
  matched : Option String
deriving Repr, DecidableEq

/-- A match of the relative-offset regex
`/in\s+(\d+)\s*(minute|min|hour|hr|day|week)s?/i`:
the full matched slice, the parsed amount (group 1) and the unit (group 2). -/
structure InMatch where
  chars : List Char
  amount : Nat
  unit : String
deriving Repr, DecidableEq

/-- The unit alternation `(minute|min|hour|hr|day|week)` tried in regex order
at the head of `cs`; returns the consumed literal and the rest. -/
def unitHere (cs : List Char) : Option (List Char × List Char) :=
  if isPre ("minute".toList) cs then some ("minute".toList, cs.drop 6)
  else if isPre ("min".toList) cs then some ("min".toList, cs.drop 3)
  else if isPre ("hour".toList) cs then some ("hour".toList, cs.drop 4)
  else if isPre ("hr".toList) cs then some ("hr".toList, cs.drop 2)
  else if isPre ("day".toList) cs then some ("day".toList, cs.drop 3)
  else if isPre ("week".toList) cs then some ("week".toList, cs.drop 4)
  else none

/-- One attempt of the relative-offset regex anchored at the head of `cs`. -/
def inHere (cs : List Char) : Option InMatch :=
  match cs with
  | 'i' :: 'n' :: rest =>
    let w := rest.takeWhile isWs
    let r1 := rest.dropWhile isWs
    if w.isEmpty then none else
    let ds := r1.takeWhile Char.isDigit
    let r2 := r1.dropWhile Char.isDigit
    if ds.isEmpty then none else
    let w2 := r2.takeWhile isWs
    let r3 := r2.dropWhile isWs
    match unitHere r3 with
    | some (u, r4) =>
      let sfx : List Char := if r4.head? = some 's' then ['s'] else []
      some ⟨'i' :: 'n' :: (w ++ ds ++ w2 ++ u ++ sfx), digitsToNat ds, String.mk u⟩
    | none => none
  | _ => none

/-- Leftmost match of the relative-offset regex (JS `String.prototype.match`
without the `g` flag). -/
def inScan : List Char → Option InMatch
  | [] => none
  | c :: rest =>
    match inHere (c :: rest) with
    | some r => some r
    | none => inScan rest

/-- Lines 22–30 of `timeParser.js`: dispatch on the captured unit group and
add the offset to `now` (`startsWith('min')`, `startsWith('hour') || 'hr'`,
`'day'`, `'week'`). -/
def applyInUnit (now : Int) (amount : Nat) (unit : String) : Int :=
  if isPre ("min".toList) unit.toList then now + (amount : Int) * msPerMinute
  else if isPre ("hour".toList) unit.toList || unit = "hr" then now + (amount : Int) * msPerHour
  else if unit = "day" then now + (amount : Int) * msPerDay
  else if unit = "week" then now + ((amount : Int) * 7) * msPerDay
  else now

/-- Claim-side unit durations (spec §8, claim C3): a minute, an hour, a day,
and a 7-day week, in milliseconds, keyed by the regex's captured unit group. -/
def unitToMs : String → Int
  | "minute" => 60000
  | "min" => 60000
  | "hour" => 3600000
  | "hr" => 3600000
  | "day" => 86400000
  | "week" => 604800000
  | _ => 0

/-- A match of the clock-time regex
`/(?:at\s+)?(\d{1,2})(?::(\d{2}))?\s*(am|pm)?/i`. -/
structure TimeMatch where
  chars : List Char
  hours : Nat
  minutes : Option Nat
  period : Option String
deriving Repr, DecidableEq

/-- The mandatory part of the clock-time regex, anchored at the head:
one or two digits (greedy), an optional `:dd`, greedy whitespace, and an
optional ordered `(am|pm)` alternation. -/
def timeCore (cs : List Char) : Option TimeMatch :=
  let dsAll := cs.takeWhile Char.isDigit
  if dsAll.isEmpty then none else
  let ds := dsAll.take 2
  let r1 := cs.drop ds.length
  let step2 : List Char × Option Nat × List Char :=
    match r1 with
    | ':' :: d1 :: d2 :: rest =>
      if d1.isDigit && d2.isDigit then ([':', d1, d2], some (digitsToNat [d1, d2]), rest)
      else ([], none, r1)
    | _ => ([], none, r1)
  let w := step2.2.2.takeWhile isWs
  let r3 := step2.2.2.dropWhile isWs
  let per : Option String × List Char :=
    if isPre ("am".toList) r3 then (some "am", "am".toList)
    else if isPre ("pm".toList) r3 then (some "pm", "pm".toList)
    else (none, [])
  some ⟨ds ++ step2.1 ++ w ++ per.2, digitsToNat ds, step2.2.1, per.1⟩

/-- One attempt of the clock-time regex at the head of `cs`: the optional
`(?:at\s+)?` prefix is tried first (regex greediness), falling back to the
prefix-less attempt at the same position. -/
def timeHere (cs : List Char) : Option TimeMatch :=
  match cs with
  | 'a' :: 't' :: rest =>
    let w := rest.takeWhile isWs
    let r1 := rest.dropWhile isWs
    if w.isEmpty then timeCore ('a' :: 't' :: rest)
    else
      match timeCore r1 with
      | some tm => some ⟨'a' :: 't' :: (w ++ tm.chars), tm.hours, tm.minutes, tm.period⟩
      | none => timeCore ('a' :: 't' :: rest)
  | _ => timeCore cs

/-- Leftmost match of the clock-time regex. -/
def timeScan : List Char → Option TimeMatch
  | [] => none
  | c :: rest =>
    match timeHere (c :: rest) with
    | some r => some r
    | none => timeScan rest

/-- The `dayWords` table scanned with `lowerText.includes`, in object
insertion order, first hit wins (lines 39–55 of `timeParser.js`). -/
def firstDayWord (cs : List Char) : Option (String × Nat) :=
  if containsSub cs ("today".toList) then some ("today", 0)
  else if containsSub cs ("tonight".toList) then some ("tonight", 0)
  else if containsSub cs ("tomorrow".toList) then some ("tomorrow", 1)
  else if containsSub cs ("day after tomorrow".toList) then some ("day after tomorrow", 2)
  else none

/-- A match of `/(next|this)?\s*(sunday|...|saturday)/i`. -/
structure WdMatch where
  chars : List Char
  isNext : Bool
  dayIdx : Nat
deriving Repr, DecidableEq

/-- The weekday alternation in regex order, with its `weekdays` index. -/
def weekdayAlt (cs : List Char) : Option (List Char × Nat) :=
  if isPre ("sunday".toList) cs then some ("sunday".toList, 0)
  else if isPre ("monday".toList) cs then some ("monday".toList, 1)
  else if isPre ("tuesday".toList) cs then some ("tuesday".toList, 2)
  else if isPre ("wednesday".toList) cs then some ("wednesday".toList, 3)
  else if isPre ("thursday".toList) cs then some ("thursday".toList, 4)
  else if isPre ("friday".toList) cs then some ("friday".toList, 5)
  else if isPre ("saturday".toList) cs then some ("saturday".toList, 6)
  else none

/-- `\s*` then the weekday alternation (the part after the optional
qualifier). -/
def wdCore (cs : List Char) : Option (List Char × Nat) :=
  let w := cs.takeWhile isWs
  let r := cs.dropWhile isWs
  match weekdayAlt r with
  | some (wd, idx) => some (w ++ wd, idx)
  | none => none

/-- The empty-qualifier alternative. -/
def wdEmpty (cs : List Char) : Option WdMatch :=
  match wdCore cs with
  | some (m, idx) => some ⟨m, false, idx⟩
  | none => none

/-- The `this` qualifier alternative, falling back to the empty one. -/
def wdThis (cs : List Char) : Option WdMatch :=
  if isPre ("this".toList) cs then
    match wdCore (cs.drop 4) with
    | some (m, idx) => some ⟨"this".toList ++ m, false, idx⟩
    | none => wdEmpty cs
  else wdEmpty cs

/-- One attempt of the weekday regex at the head of `cs` (ordered
alternation `next`, `this`, empty for the optional qualifier group). -/
def wdHere (cs : List Char) : Option WdMatch :=
  if isPre ("next".toList) cs then
    match wdCore (cs.drop 4) with
    | some (m, idx) => some ⟨"next".toList ++ m, true, idx⟩
    | none => wdThis cs
  else wdThis cs

/-- Leftmost match of the weekday regex. -/
def wdScan : List Char → Option WdMatch
  | [] => none
  | c :: rest =>
    match wdHere (c :: rest) with
    | some r => some r
    | none => wdScan rest

/-- One attempt of `/in\s+a\s+week/i` at the head of `cs`. -/
def inAWeekHere (cs : List Char) : Bool :=
  match cs with
  | 'i' :: 'n' :: rest =>
    let w := rest.takeWhile isWs
    let r1 := rest.dropWhile isWs
    if w.isEmpty then false else
    match r1 with
    | 'a' :: r2 =>
      let w2 := r2.takeWhile isWs
      let r3 := r2.dropWhile isWs
      !w2.isEmpty && isPre ("week".toList) r3
    | _ => false
  | _ => false

/-- Whether `/in\s+a\s+week/i` matches anywhere. -/
def inAWeekScan : List Char → Bool
  | [] => false
  | c :: rest => inAWeekHere (c :: rest) || inAWeekScan rest

/-- Lines 89–100 of `timeParser.js`: conversion of the captured hour and
optional `am`/`pm` group to 24-hour form, including the bare-hour 1–7 PM
heuristic. -/
def convertTo24 (hours : Nat) (period : Option String) : Nat :=
  if period = some "pm" ∧ hours ≠ 12 then hours + 12
  else if period = some "am" ∧ hours = 12 then 0
  else if period = none ∧ hours < 12 ∧ hours ≠ 0 then
    (if 1 ≤ hours ∧ hours ≤ 7 then hours + 12 else hours)
  else hours

/-- `parseTimeExpression(text)` from `timeParser.js`, with the implicit
`new Date()` made an explicit `now` parameter. -/
def parseTimeExpression (text : String) (now : Int) : ParsedTime :=
  if text = "" then ⟨none, none⟩ else
  let cs := (lower text).toList
  match inScan cs with
  | some im => ⟨some (applyInUnit now im.amount im.unit), some (String.mk im.chars)⟩
  | none =>
    let timeMatch := timeScan cs
    let day0 : Int × Option String :=
      match firstDayWord cs with
      | some (w, d) => (now + (d : Int) * msPerDay, some w)
      | none => (now, none)
    let day1 : Int × Option String :=
      match wdScan cs with
      | some wm =>
        let currentDay := getDay now
        let du0 : Int := (wm.dayIdx : Int) - currentDay
        let du : Int := if du0 ≤ 0 ∨ wm.isNext = true then du0 + 7 else du0
        (now + du * msPerDay, some (String.mk wm.chars))
      | none => day0
    let day2 : Int × Option String :=
      if containsSub cs ("next week".toList) || inAWeekScan cs then
        (now + 7 * msPerDay, some "next week")
      else day1
    match timeMatch with
    | some tm =>
      let hours := convertTo24 tm.hours tm.period
      let minutes := tm.minutes.getD 0
      let td0 := setHM day2.1 hours minutes
      let td := if day2.2 = none ∧ td0 ≤ now then td0 + msPerDay else td0
      ⟨some td,
       some (match day2.2 with
         | some d => d ++ " at " ++ String.mk tm.chars
         | none => "at " ++ String.mk tm.chars)⟩
    | none =>
      match day2.2 with
      | some d =>
        let td :=
          if containsSub cs ("morning".toList) then setHM day2.1 9 0
          else if containsSub cs ("afternoon".toList) then setHM day2.1 14 0
          else if containsSub cs ("evening".toList) || containsSub cs ("tonight".toList) then
            setHM day2.1 18 0
          else if containsSub cs ("night".toList) then setHM day2.1 21 0
          else setHM day2.1 9 0
        ⟨some td, some d⟩
      | none =>
        if containsSub cs ("end of day".toList) || containsSub cs ("eod".toList) then
          let td0 := setHM now 17 0
          ⟨some (if td0 ≤ now then td0 + msPerDay else td0), some "end of day"⟩
        else if containsSub cs ("this morning".toList) then
          ⟨some (setHM now 9 0), some "this morning"⟩
        else if containsSub cs ("this afternoon".toList) then
          ⟨some (setHM now 14 0), some "this afternoon"⟩
        else if containsSub cs ("this evening".toList) then
          ⟨some (setHM now 18 0), some "this evening"⟩
        else ⟨none, none⟩

/-! ### `extractReminderContent` (timeParser.js lines 166–180) -/

/-- JS `String.prototype.trim` (ASCII whitespace), list-based so that it
evaluates by kernel reduction. -/
def jsTrim (s : String) : String :=
  String.mk (((s.toList.dropWhile Char.isWhitespace).reverse.dropWhile
    Char.isWhitespace).reverse)

/-- Case-insensitive list-prefix test (regex `i` flag). -/
def isPreCI : List Char → List Char → Bool
  | [], _ => true
  | _ :: _, [] => false
  | p :: ps, c :: cs => (p.toLower == c.toLower) && isPreCI ps cs

/-- `text.replace(new RegExp(matched, 'i'), '')` for a metacharacter-free
`matched` (every matched text the parser produces is one): remove the first
case-insensitive occurrence. -/
def removeFirstCI (cs pat : List Char) : List Char :=
  match cs with
  | [] => []
  | c :: t => if isPreCI pat (c :: t) then t.drop (pat.length - 1) else c :: removeFirstCI t pat

/-- One alternative of `^(to|about|that|for)\s+`: the word (case-insensitive)
followed by at least one whitespace; returns the rest after the whitespace. -/
def tryFiller (w : String) (cs : List Char) : Option (List Char) :=
  if isPreCI w.toList cs then
    let r := cs.drop w.toList.length
    if (r.takeWhile isWs).isEmpty then none else some (r.dropWhile isWs)
  else none

/-- `content.replace(/^(to|about|that|for)\s+/i, '')`, ordered alternation. -/
def stripLeadFiller (cs : List Char) : List Char :=
  match tryFiller "to" cs with
  | some r => r
  | none =>
    match tryFiller "about" cs with
    | some r => r
    | none =>
      match tryFiller "that" cs with
      | some r => r
      | none =>
        match tryFiller "for" cs with
        | some r => r
        | none => cs

/-- One alternative of `\s+(at|on|in|by|before|after)$` checked on the
reversed list: the word's reversal, then at least one whitespace. -/
def tryTrail (w : String) (rcs : List Char) : Option (List Char) :=
  if isPreCI w.toList.reverse rcs then
    let r := rcs.drop w.toList.length
    if (r.takeWhile isWs).isEmpty then none else some (r.dropWhile isWs)
  else none

/-- `content.replace(/\s+(at|on|in|by|before|after)$/i, '')`. -/
def stripTrailPrep (cs : List Char) : List Char :=
  let rcs := cs.reverse
  let res :=
    match tryTrail "at" rcs with
    | some r => r
    | none =>
      match tryTrail "on" rcs with
      | some r => r
      | none =>
        match tryTrail "in" rcs with
        | some r => r
        | none =>
          match tryTrail "by" rcs with
          | some r => r
          | none =>
            match tryTrail "before" rcs with
            | some r => r
            | none =>
              match tryTrail "after" rcs with
              | some r => r
              | none => rcs
  res.reverse

/-- `extractReminderContent(text, matched)` from `timeParser.js`. -/
def extractReminderContent (text matched : String) : String :=
  if text = "" then "" else
  if matched = "" then text else
  let content := jsTrim (String.mk (removeFirstCI text.toList matched.toList))
  jsTrim (String.mk (stripTrailPrep (stripLeadFiller content.toList)))

/-! ### The reminder plugin's additional prefix strip
(part_001 lines 1896–1901): after `extractReminderContent`, the reminders
plugin removes `/^(remind\s+me\s+to|remind\s+me|reminder|remind)\s*/i` and
trims. -/

/-- `remind\s+me\s+to` anchored at the head (case-insensitive). -/
def tryRemindMeTo (cs : List Char) : Option (List Char) :=
  if isPreCI ("remind".toList) cs then
    let r1 := cs.drop 6
    if (r1.takeWhile isWs).isEmpty then none else
    let r2 := r1.dropWhile isWs
    if isPreCI ("me".toList) r2 then
      let r3 := r2.drop 2
      if (r3.takeWhile isWs).isEmpty then none else
      let r4 := r3.dropWhile isWs
      if isPreCI ("to".toList) r4 then some (r4.drop 2) else none
    else none
  else none

/-- `remind\s+me` anchored at the head (case-insensitive). -/
def tryRemindMe (cs : List Char) : Option (List Char) :=
  if isPreCI ("remind".toList) cs then
    let r1 := cs.drop 6
    if (r1.takeWhile isWs).isEmpty then none else
    let r2 := r1.dropWhile isWs
    if isPreCI ("me".toList) r2 then some (r2.drop 2) else none
  else none

/-- The ordered alternation `(remind\s+me\s+to|remind\s+me|reminder|remind)`. -/
def remindAlt (cs : List Char) : Option (List Char) :=
  match tryRemindMeTo cs with
  | some r => some r
  | none =>
    match tryRemindMe cs with
    | some r => some r
    | none =>
      if isPreCI ("reminder".toList) cs then some (cs.drop 8)
      else if isPreCI ("remind".toList) cs then some (cs.drop 6)
      else none

/-- `.replace(/^(remind\s+me\s+to|remind\s+me|reminder|remind)\s*/i, '').trim()`. -/
def cleanRemindLead (s : String) : String :=
  match remindAlt s.toList with
  | some rest => jsTrim (String.mk (rest.dropWhile isWs))
  | none => jsTrim s

/-- The reminders plugin's full content cleanup (part_001 lines 1896–1901):
`extractReminderContent` followed by the `remind me to`-style strip. -/
def reminderContentOf (rawInput matched : String) : String :=
  cleanRemindLead (extractReminderContent rawInput matched)

/-! ### `formatReminderTime` (timeParser.js lines 187–232) -/

/-- JS `Math.round(num/den)` for `den > 0`: `floor(num/den + 1/2)`. -/
def jsRound (num den : Int) : Int := (2 * num + den) / (2 * den)

/-- Local calendar-day index; `toDateString()` equality is equality of this. -/
def dayIndex (t : Int) : Int := t / msPerDay

/-- Two-digit minute padding. -/
def pad2 (n : Nat) : String := if n < 10 then "0" ++ toString n else toString n

/-- `toLocaleTimeString('en-US', {hour:'numeric', minute:'2-digit', hour12:true})`. -/
def timeStr12 (t : Int) : String :=
  let md := (t % msPerDay).toNat / 60000
  let h := md / 60
  let m := md % 60
  let h12 := if h % 12 = 0 then 12 else h % 12
  let mer := if h < 12 then "AM" else "PM"
  s!"{h12}:{pad2 m} {mer}"

/-- Long weekday names, indexed by `getDay`. -/
def dayNameLong (t : Int) : String :=
  ["Sunday", "Monday", "Tuesday", "Wednesday", "Thursday", "Friday", "Saturday"].getD
    (getDay t).toNat ""

/-- Short weekday names, indexed by `getDay`. -/
def dayNameShort (t : Int) : String :=
  ["Sun", "Mon", "Tue", "Wed", "Thu", "Fri", "Sat"].getD (getDay t).toNat ""

/-- Proleptic-Gregorian civil date (year, month, day) from a day index
(Hinnant's algorithm), for the calendar-date rendering bucket. -/
def civilFromDays (z0 : Int) : Int × Nat × Nat :=
  let z := z0 + 719468
  let era : Int := z / 146097
  let doe : Nat := (z - era * 146097).toNat
  let yoe : Nat := (doe - doe / 1460 + doe / 36524 - doe / 146096) / 365
  let y : Int := (yoe : Int) + era * 400
  let doy : Nat := doe - (365 * yoe + yoe / 4 - yoe / 100)
  let mp : Nat := (5 * doy + 2) / 153
  let d : Nat := doy - (153 * mp + 2) / 5 + 1
  let m : Nat := if mp < 10 then mp + 3 else mp - 9
  (if m ≤ 2 then y + 1 else y, m, d)

/-- Short month names (1-based). -/
def monthShort (m : Nat) : String :=
  ["Jan", "Feb", "Mar", "Apr", "May", "Jun", "Jul", "Aug", "Sep", "Oct", "Nov", "Dec"].getD
    (m - 1) ""

/-- `toLocaleDateString('en-US', {weekday:'short', month:'short', day:'numeric',
hour:'numeric', minute:'2-digit'})`. -/
def longDateStr (t : Int) : String :=
  let c := civilFromDays (dayIndex t)
  s!"{dayNameShort t}, {monthShort c.2.1} {c.2.2}, {timeStr12 t}"

/-- `formatReminderTime(date)` from `timeParser.js`, with the implicit
`new Date()` made an explicit `now` parameter. -/
def formatReminderTime (date : Option Int) (now : Int) : String :=
  match date with
  | none => ""
  | some d =>
    let diffMs := d - now
    let diffMins := jsRound diffMs 60000
    let diffHours := jsRound diffMs 3600000
    let diffDays := jsRound diffMs 86400000
    let isToday := dayIndex d = dayIndex now
    let isTomorrow := dayIndex d = dayIndex (now + msPerDay)
    let timeStr := timeStr12 d
    if diffMins < 60 then s!"in {diffMins} minutes"
    else if diffHours < 24 ∧ isToday then s!"today at {timeStr}"
    else if isTomorrow then s!"tomorrow at {timeStr}"
    else if diffDays < 7 then s!"{dayNameLong d} at {timeStr}"
    else longDateStr d

end TimeParser

namespace AIService

/-!
Embedding of `src/aiService.js`'s `parseAIResponse` / `processWithAI`.
The host's `JSON.parse` builtin is abstracted as a parameter
`jp : String → Option AIJson` (`none` models a thrown `SyntaxError`,
`some` the fields the caller reads off the parsed object — a field is
`none` when the JSON object lacks it, i.e. `undefined`).  The network call
(`callAnthropic`/`callOpenAI`) is abstracted as an `Except String String`
argument: `.error` models a thrown transport/API error.  Totality of the
Lean functions models the JS functions not throwing.
-/

/-- The fields `processWithAI` reads off a `JSON.parse` result. -/
structure AIJson where
  message : Option String
  action : Option String
  params : Option (List (String × String))
deriving Repr, DecidableEq

/-- `responseText.match(/\{[\s\S]*\}/)`: the slice from the first `{` to the
last `}`, when the first `{` precedes the last `}`. -/
def extractJsonBlock (s : String) : Option String :=
  let cs := s.toList
  match cs.findIdx? (· = '{') with
  | none => none
  | some i =>
    match (cs.reverse.findIdx? (· = '}')).map (fun k => cs.length - 1 - k) with
    | none => none
    | some j => if i < j then some (String.mk ((cs.drop i).take (j - i + 1))) else none

/-- `parseAIResponse(responseText)` (aiService.js lines 221–238): extract the
first top-level `{...}` block and `JSON.parse` it; on any failure return the
conversation-shaped fallback object. -/
def parseAIResponse (jp : String → Option AIJson) (responseText : String) : AIJson :=
  match extractJsonBlock responseText with
  | some block =>
    match jp block with
    | some obj => obj
    | none => ⟨some responseText, some "conversation", some []⟩
  | none => ⟨some responseText, some "conversation", some []⟩

/-- The value `processWithAI` resolves with. -/
structure AIProcessed where
  message : Option String
  action : Option String
  params : List (String × String)
  aiProcessed : Bool
deriving Repr, DecidableEq

/-- `processWithAI(userInput, ...)` (aiService.js lines 241–278): `none`
models the `null` return (no provider key, or a thrown provider error caught
by the surrounding `try`). -/
def processWithAI (jp : String → Option AIJson) (hasKey : Bool)
    (callResult : Except String String) : Option AIProcessed :=
  if !hasKey then none
  else
    match callResult with
    | .error _ => none
    | .ok responseText =>
      let parsed := parseAIResponse jp responseText
      some ⟨parsed.message, parsed.action, parsed.params.getD [], true⟩

end AIService

namespace UI

/-!
Embedding of the UI-layer `processWithAI` dispatcher and `processInput`
pipeline of `src/unnamed/part_001` (lines 2941–3092).  The plugin registry's
`execute` functions are effectful (database access), so the registry is a
parameter `plugins : String → Option (PluginParams → Except String ExecResult)`
(`none` models a key absent from the `plugins` object; `.error` models a
thrown `execute`).  The AI resolver's outcome is the `Option AIResult`
argument (`aiService.processWithAI` itself never throws).
-/

/-- The shape of a non-null `processWithContextAI` result as this dispatcher
reads it (`message`, `action`, `params`; a missing JSON field is `none`). -/
structure AIResult where
  message : Option String
  action : Option String
  params : List (String × String)
deriving Repr, DecidableEq

/-- One `actionMap` entry (part_001 lines 3007–3030). -/
structure Mapping where
  plugin : String
  action : String
  paramKey : Option String
  includeRawInput : Bool
  includeLocation : Bool
deriving Repr, DecidableEq

/-- The `actionMap` object, entry for entry. -/
def actionMap : String → Option Mapping
  | "note_create" => some ⟨"notes", "create", some "content", false, false⟩
  | "note_list" => some ⟨"notes", "list", none, false, false⟩
  | "note_delete" => some ⟨"notes", "delete", none, false, false⟩
  | "note_clear" => some ⟨"notes", "clear", none, false, false⟩
  | "reminder_create" => some ⟨"reminders", "create", some "content", true, false⟩
  | "reminder_list" => some ⟨"reminders", "list", none, false, false⟩
  | "task_create" => some ⟨"tasks", "create", some "content", false, false⟩
  | "task_list" => some ⟨"tasks", "list", none, false, false⟩
  | "list_add" => some ⟨"lists", "add", none, false, false⟩
  | "list_show" => some ⟨"lists", "show", none, false, false⟩
  | "list_create" => some ⟨"lists", "show", none, false, false⟩
  | "search" => some ⟨"search", "search", some "query", false, true⟩
  | "text_send" => some ⟨"text", "send", none, false, false⟩
  | "calendar_list" => some ⟨"calendar", "list", none, false, false⟩
  | "calendar_create" => some ⟨"calendar", "create", none, false, false⟩
  | "calendar_today" => some ⟨"calendar", "today", none, false, false⟩
  | "email_check" => some ⟨"email", "inbox", none, false, false⟩
  | "recording_start" => some ⟨"recording", "start", none, false, false⟩
  | "contact_add" => some ⟨"contacts", "add", none, false, false⟩
  | "contact_list" => some ⟨"contacts", "list", none, false, false⟩
  | "contact_find" => some ⟨"contacts", "find", none, false, false⟩
  | "contact_delete" => some ⟨"contacts", "delete", none, false, false⟩
  | _ => none

/-- The `ExecutionResult` contract as this dispatcher reads it; list-shaped
fields carry the strings the formatter maps over (`t.content`, `r.content`,
`n.content`, `i.item`). -/
structure ExecResult where
  success : Bool
  message : Option String
  tasks : Option (List String)
  reminders : Option (List String)
  notes : Option (List String)
  items : Option (List String)
  listName : Option String
deriving Repr, DecidableEq

/-- The parameter object the dispatcher builds for `execute`. -/
structure PluginParams where
  action : String
  extra : List (String × String)
  mainParam : Option (String × String)
  rawInput : Option String
  userLocation : Option String
deriving Repr, DecidableEq

/-- Construction of `pluginParams` (part_001 lines 3036–3056): spread of
`aiResult.params`, the `paramKey ← params.content` mapping (guarded by JS
truthiness of `params.content`), `rawInput` and `userLocation` injection. -/
def buildParams (m : Mapping) (a : AIResult) (userInput userLocation : String) :
    PluginParams :=
  { action := m.action
  , extra := a.params
  , mainParam :=
      match m.paramKey, a.params.lookup "content" with
      | some k, some v => if v = "" then none else some (k, v)
      | _, _ => none
  , rawInput := if m.includeRawInput then some userInput else none
  , userLocation := if m.includeLocation then some userLocation else none }

/-- The `{message, action, data}` value the dispatcher resolves with. -/
structure UIResponse where
  message : Option String
  action : Option String
  data : Option ExecResult
deriving Repr, DecidableEq

/-- Bulleted join used for list-shaped results. -/
def bulleted (items : List String) : String :=
  String.intercalate "\n" (items.map (fun s => "• " ++ s))

/-- Result normalization after a successful `execute` (part_001 lines
3058–3085): list-shaped results become a bulleted message; otherwise
`result.message || aiResult.message` (JS falsiness: also an empty string
falls back). -/
def formatDispatchResult (m : Mapping) (a : AIResult) (result : ExecResult) :
    UIResponse :=
  let fallback : UIResponse :=
    { message :=
        match result.message with
        | some s => if s = "" then a.message else some s
        | none => a.message
    , action := some m.plugin
    , data := some result }
  if m.action = "list" ∧ result.success then
    match result.tasks with
    | some (t :: ts) =>
      ⟨some ("Your tasks:\n" ++ bulleted (t :: ts)), some m.plugin, some result⟩
    | _ =>
      match result.reminders with
      | some (r :: rs) =>
        ⟨some ("Your reminders:\n" ++ bulleted (r :: rs)), some m.plugin, some result⟩
      | _ =>
        match result.notes with
        | some (n :: ns) =>
          ⟨some ("Your notes:\n" ++ bulleted (n :: ns)), some m.plugin, some result⟩
        | _ =>
          match result.items with
          | some (i :: is') =>
            ⟨some ((result.listName.getD "List") ++ ":\n" ++ bulleted (i :: is')),
             some m.plugin, some result⟩
          | _ => fallback
  else fallback

/-- The UI-layer `processWithAI` (part_001 lines 2996–3093): map the AI
action through `actionMap`, run the plugin's `execute` under `try`/`catch`,
fall through to the AI's own message when the action is unmapped, the plugin
key is unregistered, or `execute` threw. -/
def processWithAI
    (plugins : String → Option (PluginParams → Except String ExecResult))
    (aiResult? : Option AIResult) (userInput userLocation : String) :
    Except String (Option UIResponse) :=
  match aiResult? with
  | none => .ok none
  | some aiResult =>
    match aiResult.action.bind actionMap with
    | some m =>
      match plugins m.plugin with
      | some exec =>
        match exec (buildParams m aiResult userInput userLocation) with
        | .ok result => .ok (some (formatDispatchResult m aiResult result))
        | .error _ => .ok (some ⟨aiResult.message, aiResult.action, none⟩)
      | none => .ok (some ⟨aiResult.message, aiResult.action, none⟩)
    | none => .ok (some ⟨aiResult.message, aiResult.action, none⟩)

/-- `processInput` (part_001 lines 2941–2995), reduced to its message-log
effect: run the AI path, fall back to the keyword path on `null`, append the
response message; a thrown error is caught and appended as the
`Sorry, I encountered an error:` message.  Totality models the pipeline
surviving to the next utterance. -/
def processInput (aiPipeline : Except String (Option UIResponse))
    (keywordPipeline : Except String UIResponse)
    (messages : List (Option String)) : List (Option String) :=
  let combined : Except String UIResponse := do
    match ← aiPipeline with
    | some r => pure r
    | none => keywordPipeline
  match combined with
  | .ok response => messages ++ [response.message]
  | .error e => messages ++ [some ("Sorry, I encountered an error: " ++ e)]

end UI

/-! ## Supporting lemmas about the scanners -/

namespace TimeParser

/-- A successful prefix test decomposes the list. -/
theorem isPre_append {p cs : List Char} (h : isPre p cs = true) :
    cs = p ++ cs.drop p.length := by
  induction p generalizing cs with
  | nil => simp
  | cons a ps ih =>
    cases cs with
    | nil => simp [isPre] at h
    | cons c t =>
      simp only [isPre, Bool.and_eq_true, beq_iff_eq] at h
      obtain ⟨rfl, h2⟩ := h
      simpa using ih h2

/-- The prefix test accepts its own prefix. -/
theorem isPre_self_append (p t : List Char) : isPre p (p ++ t) = true := by
  induction p with
  | nil => rfl
  | cons a ps ih => simp [isPre, ih]

/-- A pattern that is a prefix is a substring. -/
theorem containsSub_of_isPre {cs pat : List Char} (h : isPre pat cs = true) :
    containsSub cs pat = true := by
  cases cs with
  | nil => cases pat with
    | nil => rfl
    | cons a ps => simp [isPre] at h
  | cons c t => simp [containsSub, h]

/-- Substring search is stable under prepending. -/
theorem containsSub_append_left (l1 : List Char) {l2 pat : List Char}
    (h : containsSub l2 pat = true) : containsSub (l1 ++ l2) pat = true := by
  induction l1 with
  | nil => simpa using h
  | cons c t ih => simp [containsSub, ih]

/-- The unit alternation consumes exactly its literal. -/
theorem unitHere_pre {cs u r : List Char} (h : unitHere cs = some (u, r)) :
    cs = u ++ r := by
  unfold unitHere at h
  repeat' split at h
  all_goals first
    | exact Option.noConfusion h
    | (injection h with h'; injection h' with h1 h2; subst h1; subst h2;
       exact isPre_append (by assumption))

/-- An anchored relative-offset match consumes a prefix of the input, and its
`chars` field is exactly that consumed slice. -/
theorem inHere_pre {cs : List Char} {im : InMatch} (h : inHere cs = some im) :
    ∃ t, cs = im.chars ++ t := by
  unfold inHere at h
  split at h
  next rest =>
    dsimp only at h
    split at h
    next => exact Option.noConfusion h
    next hw =>
      split at h
      next => exact Option.noConfusion h
      next hd =>
        split at h
        next u r4 heq =>
          injection h with h'
          subst h'
          have hrest : List.takeWhile isWs rest ++ List.dropWhile isWs rest = rest :=
            List.takeWhile_append_dropWhile isWs rest
          have hr1 : List.takeWhile Char.isDigit (List.dropWhile isWs rest)
                ++ List.dropWhile Char.isDigit (List.dropWhile isWs rest)
              = List.dropWhile isWs rest :=
            List.takeWhile_append_dropWhile _ _
          have hr2 : List.takeWhile isWs
                  (List.dropWhile Char.isDigit (List.dropWhile isWs rest))
                ++ List.dropWhile isWs
                  (List.dropWhile Char.isDigit (List.dropWhile isWs rest))
              = List.dropWhile Char.isDigit (List.dropWhile isWs rest) :=
            List.takeWhile_append_dropWhile _ _
          have hu := unitHere_pre heq
          have hsfx : ∃ r5,
              (if r4.head? = some 's' then (['s'] : List Char) else []) ++ r5 = r4 := by
            cases r4 with
            | nil => exact ⟨[], rfl⟩
            | cons a t2 =>
              by_cases ha : a = 's'
              · subst ha; exact ⟨t2, by simp⟩
              · refine ⟨a :: t2, ?_⟩
                rw [if_neg (by simp [ha])]
                rfl
          obtain ⟨r5, hr5⟩ := hsfx
          refine ⟨r5, ?_⟩
          dsimp only
          simp only [List.cons_append, List.append_assoc]
          rw [hr5, ← hu, hr2, hr1, hrest]
        next => exact Option.noConfusion h
  next => exact Option.noConfusion h

/-- The matched slice of a relative-offset scan occurs in the scanned text. -/
theorem inScan_sub {cs : List Char} {im : InMatch} (h : inScan cs = some im) :
    containsSub cs im.chars = true := by
  induction cs with
  | nil => simp [inScan] at h
  | cons c t ih =>
    unfold inScan at h
    cases hh : inHere (c :: t) with
    | some r =>
      rw [hh] at h
      injection h with h'
      obtain ⟨t', ht⟩ := inHere_pre hh
      have hpre : isPre r.chars (c :: t) = true := by
        rw [ht]; exact isPre_self_append _ _
      subst h'
      simp [containsSub, hpre]
    | none =>
      rw [hh] at h
      have hc := ih h
      simp [containsSub, hc]

/-- The captured unit group is one of the six alternatives. -/
theorem unitHere_unit {cs u r : List Char} (h : unitHere cs = some (u, r)) :
    u = "minute".toList ∨ u = "min".toList ∨ u = "hour".toList ∨ u = "hr".toList
      ∨ u = "day".toList ∨ u = "week".toList := by
  unfold unitHere at h
  repeat' split at h
  all_goals first
    | exact Option.noConfusion h
    | (injection h with h'; injection h' with h1 h2; subst h1; simp)

/-- The unit field of an anchored match is one of the six alternatives. -/
theorem inHere_unit {cs : List Char} {im : InMatch} (h : inHere cs = some im) :
    im.unit = "minute" ∨ im.unit = "min" ∨ im.unit = "hour" ∨ im.unit = "hr"
      ∨ im.unit = "day" ∨ im.unit = "week" := by
  unfold inHere at h
  split at h
  next rest =>
    dsimp only at h
    split at h
    next => exact Option.noConfusion h
    next =>
      split at h
      next => exact Option.noConfusion h
      next =>
        split at h
        next u r4 heq =>
          injection h with h'
          subst h'
          rcases unitHere_unit heq with h1 | h1 | h1 | h1 | h1 | h1 <;>
            (subst h1; simp [String.mk])
        next => exact Option.noConfusion h
  next => exact Option.noConfusion h

/-- The unit field of a scan result is one of the six alternatives. -/
theorem inScan_unit {cs : List Char} {im : InMatch} (h : inScan cs = some im) :
    im.unit = "minute" ∨ im.unit = "min" ∨ im.unit = "hour" ∨ im.unit = "hr"
      ∨ im.unit = "day" ∨ im.unit = "week" := by
  induction cs with
  | nil => simp [inScan] at h
  | cons c t ih =>
    unfold inScan at h
    cases hh : inHere (c :: t) with
    | some r => rw [hh] at h; injection h with h'; subst h'; exact inHere_unit hh
    | none => rw [hh] at h; exact ih h

/-- The source's unit dispatch agrees with the claim-side unit durations on
every unit the scanner can produce. -/
theorem applyInUnit_eq {u : String} (now : Int) (a : Nat)
    (hu : u = "minute" ∨ u = "min" ∨ u = "hour" ∨ u = "hr" ∨ u = "day" ∨ u = "week") :
    applyInUnit now a u = now + (a : Int) * unitToMs u := by
  rcases hu with rfl | rfl | rfl | rfl | rfl | rfl <;> unfold applyInUnit <;>
    first
      | (rw [if_pos (by decide)]; rfl)
      | (rw [if_neg (by decide), if_pos (by decide)]; rfl)
      | (rw [if_neg (by decide), if_neg (by decide), if_pos (by decide)]; rfl)
      | (rw [if_neg (by decide), if_neg (by decide), if_neg (by decide),
             if_pos (by decide)]
         simp only [msPerDay, unitToMs]
         ring)

/-- A bare hour 1–7 with no am/pm marker is converted to PM. -/
theorem convertTo24_low {h : Nat} (h1 : 1 ≤ h) (h7 : h ≤ 7) :
    convertTo24 h none = h + 12 := by
  have hlt : h < 12 := by omega
  have hne : h ≠ 0 := by omega
  simp [convertTo24, hlt, hne, h1, h7]

/-- A bare hour 0 or ≥ 8 with no am/pm marker is left unchanged. -/
theorem convertTo24_keep {h : Nat} (hh : h = 0 ∨ 8 ≤ h) :
    convertTo24 h none = h := by
  unfold convertTo24
  rw [if_neg (by simp), if_neg (by simp)]
  split
  next hc =>
    obtain ⟨-, hlt, hne⟩ := hc
    rw [if_neg (by omega)]
  next => rfl

/-- The hour of day of a `setHM` result (optionally rolled forward one day)
is the hour that was set, for in-range hours and minutes. -/
theorem setHM_hod_ite (c : Prop) [Decidable c] (x : Int) (H M : Nat)
    (hH : H < 24) (hM : M < 60) :
    (if c then setHM x H M + msPerDay else setHM x H M) % 86400000 / 3600000
      = (H : Int) := by
  unfold setHM msPerDay msPerHour msPerMinute
  split <;> omega

end TimeParser

/-! ## Claim theorems -/

namespace TimeParser

/-- C3: for every input text on which the relative-offset pattern
`in N <unit>` matches (unit ∈ minute/min/hour/hr/day/week, optional plural
`s`), `parseTimeExpression` returns `now` plus `N` of that unit (7·N days for
weeks, per `unitToMs`), with the matched text being the offset phrase the
scanner consumed. -/
theorem c3_relative_offset_adds_units (text : String) (now : Int) (im : InMatch)
    (h : inScan ((lower text).toList) = some im) :
    parseTimeExpression text now
      = ⟨some (now + (im.amount : Int) * unitToMs im.unit), some (String.mk im.chars)⟩ := by
  have htext : ¬ text = "" := by
    rintro rfl
    rw [show inScan ((lower "").toList) = none from by decide] at h
    exact Option.noConfusion h
  unfold parseTimeExpression
  rw [if_neg htext]
  dsimp only
  rw [h]
  dsimp only
  rw [applyInUnit_eq now im.amount (inScan_unit h)]

/-- Witness for C3 at the concrete input `"remind me in 30 minutes"`. -/
theorem c3_witness :
    inScan ((lower "remind me in 30 minutes").toList)
        = some ⟨"in 30 minutes".toList, 30, "minute"⟩
    ∧ parseTimeExpression "remind me in 30 minutes" 0
        = ⟨some ((0 : Int) + (30 : Int) * unitToMs "minute"), some "in 30 minutes"⟩ :=
  ⟨by decide,
   c3_relative_offset_adds_units "remind me in 30 minutes" 0
     ⟨"in 30 minutes".toList, 30, "minute"⟩ (by decide)⟩

/-- C4: for every input text and every `now`, the two fields of the returned
`ParsedTime` are set or cleared together: the date is non-null exactly when
the matched text is non-null. -/
theorem c4_date_matched_together (text : String) (now : Int) :
    (parseTimeExpression text now).date.isSome
      = (parseTimeExpression text now).matched.isSome := by
  unfold parseTimeExpression
  split
  · rfl
  · dsimp only
    repeat' split
    all_goals rfl

/-- C5 counterexample: on the input `"tomorrow at 3pm"` (the very shape the
claim cites) the parser's matched text is the assembled string
`"tomorrow at at 3pm"` — the day word, a literal `" at "`, and the raw
clock-time match (which itself contains `"at "`) — and that string does not
occur in the (lower-cased) input, so the matched text is not a substring of
the input even up to case. -/
theorem c5_counterexample :
    (parseTimeExpression "tomorrow at 3pm" 0).matched = some "tomorrow at at 3pm"
    ∧ containsSub ((lower "tomorrow at 3pm").toList)
        ((lower "tomorrow at at 3pm").toList) = false :=
  ⟨by decide, by decide⟩

/-- C5 amended: when the match comes from the relative-offset branch
(`in N <unit>`), the matched text is an actual slice of the lower-cased input
and hence a substring of the input up to case; matched texts assembled from a
day phrase and a clock time (`"<day> at <time>"`, `"at <time>"`) need not
occur in the input. -/
theorem c5_offset_match_is_substring (text : String) (im : InMatch)
    (h : inScan ((lower text).toList) = some im) :
    containsSub ((lower text).toList) im.chars = true :=
  inScan_sub h

/-- Witness for the amended C5 at the concrete input `"call dad in 2 hours"`. -/
theorem c5_witness :
    inScan ((lower "call dad in 2 hours").toList)
        = some ⟨"in 2 hours".toList, 2, "hour"⟩
    ∧ containsSub ((lower "call dad in 2 hours").toList) ("in 2 hours".toList) = true :=
  ⟨by decide,
   c5_offset_match_is_substring "call dad in 2 hours"
     ⟨"in 2 hours".toList, 2, "hour"⟩ (by decide)⟩

/-- C6 counterexample: `extractReminderContent` applied to
`"remind me to call John in 30 minutes"` with matched text `"in 30 minutes"`
returns `"remind me to call John"`, not `"call John"`: the function removes
the matched phrase and the `to|about|that|for` filler only — the
`"remind me to"` strip is performed afterwards by the reminders plugin, not
by the extraction. -/
theorem c6_counterexample :
    extractReminderContent "remind me to call John in 30 minutes" "in 30 minutes"
        = "remind me to call John"
    ∧ extractReminderContent "remind me to call John in 30 minutes" "in 30 minutes"
        ≠ "call John" :=
  ⟨by decide, by decide⟩

/-- C6 amended: the reminders plugin's full extraction — `extractReminderContent`
followed by the plugin's own `remind me to`-prefix strip (part_001 lines
1896–1901, modelled by `reminderContentOf`) — maps the cited input to exactly
`"call John"`. -/
theorem c6_plugin_extraction :
    reminderContentOf "remind me to call John in 30 minutes" "in 30 minutes"
      = "call John" := by decide

/-- C7: for every `now`, parsing `"next Friday"` yields an instant strictly
more than 0 and at most 13 days after `now` that falls on a Friday
(`getDay = 5`); the `next` qualifier forces the `+7` roll for every current
weekday. -/
theorem c7_next_friday (now : Int) :
    ∃ t, (parseTimeExpression "next Friday" now).date = some t
      ∧ 0 < t - now ∧ t - now ≤ 13 * 86400000 ∧ getDay t = 5 := by
  have h0 : ¬ ("next Friday" : String) = "" := by decide
  have h1 : inScan ((lower "next Friday").toList) = none := by decide
  have h2 : timeScan ((lower "next Friday").toList) = none := by decide
  have h3 : firstDayWord ((lower "next Friday").toList) = none := by decide
  have h4 : wdScan ((lower "next Friday").toList)
      = some ⟨"next friday".toList, true, 5⟩ := by decide
  have h5 : (containsSub ((lower "next Friday").toList) ("next week".toList)
      || inAWeekScan ((lower "next Friday").toList)) = false := by decide
  have hm : containsSub ((lower "next Friday").toList) ("morning".toList) = false := by
    decide
  have ha : containsSub ((lower "next Friday").toList) ("afternoon".toList) = false := by
    decide
  have he : (containsSub ((lower "next Friday").toList) ("evening".toList)
      || containsSub ((lower "next Friday").toList) ("tonight".toList)) = false := by
    decide
  have hn : containsSub ((lower "next Friday").toList) ("night".toList) = false := by
    decide
  unfold parseTimeExpression
  rw [if_neg h0]
  dsimp only
  simp only [h1, h2, h3, h4, h5, hm, ha, he, hn]
  refine ⟨_, rfl, ?_, ?_, ?_⟩ <;>
  · simp only [setHM, getDay, msPerDay, msPerHour, msPerMinute]
    push_cast
    omega

/-- C8: the clock-time hour conversion of `parseTimeExpression` (lines 89–100
of timeParser.js, embedded as `convertTo24`) treats a bare hour 1–7 with no
am/pm marker as PM (adds 12) and leaves a bare hour 0 or ≥ 8 unchanged;
end to end, an input whose clock-time match has a bare hour 1 ≤ H ≤ 7
(resp. 8 ≤ H ≤ 23) and in-range minutes parses to an instant whose hour of
day is H+12 (resp. H). -/
theorem c8_bare_hour_pm_heuristic :
    (∀ h : Nat, 1 ≤ h → h ≤ 7 → convertTo24 h none = h + 12)
    ∧ (∀ h : Nat, h = 0 ∨ 8 ≤ h → convertTo24 h none = h)
    ∧ (∀ (text : String) (now : Int) (tm : TimeMatch),
        inScan ((lower text).toList) = none →
        timeScan ((lower text).toList) = some tm →
        tm.period = none → 1 ≤ tm.hours → tm.hours ≤ 7 → tm.minutes.getD 0 < 60 →
        ∃ t, (parseTimeExpression text now).date = some t
          ∧ t % 86400000 / 3600000 = (tm.hours : Int) + 12)
    ∧ (∀ (text : String) (now : Int) (tm : TimeMatch),
        inScan ((lower text).toList) = none →
        timeScan ((lower text).toList) = some tm →
        tm.period = none → 8 ≤ tm.hours → tm.hours ≤ 23 → tm.minutes.getD 0 < 60 →
        ∃ t, (parseTimeExpression text now).date = some t
          ∧ t % 86400000 / 3600000 = (tm.hours : Int)) := by
  refine ⟨fun h h1 h7 => convertTo24_low h1 h7,
          fun h hh => convertTo24_keep hh, ?_, ?_⟩
  · intro text now tm hin hts hp h1 h7 hm
    have htext : ¬ text = "" := by
      rintro rfl
      rw [show timeScan ((lower "").toList) = none from by decide] at hts
      exact Option.noConfusion hts
    unfold parseTimeExpression
    rw [if_neg htext]
    dsimp only
    rw [hin]
    dsimp only
    rw [hts]
    dsimp only
    rw [hp, convertTo24_low h1 h7]
    refine ⟨_, rfl, ?_⟩
    rw [setHM_hod_ite _ _ _ _ (by omega) hm]
    push_cast
    ring
  · intro text now tm hin hts hp h8 h23 hm
    have htext : ¬ text = "" := by
      rintro rfl
      rw [show timeScan ((lower "").toList) = none from by decide] at hts
      exact Option.noConfusion hts
    unfold parseTimeExpression
    rw [if_neg htext]
    dsimp only
    rw [hin]
    dsimp only
    rw [hts]
    dsimp only
    rw [hp, convertTo24_keep (Or.inr h8)]
    refine ⟨_, rfl, ?_⟩
    rw [setHM_hod_ite _ _ _ _ (by omega) hm]

/-- Witness for C8: hour 3 becomes 15, hour 9 stays 9; end to end,
`"call mom at 3"` parses to a 15:00 instant and `"meet at 10"` to a 10:00
instant. -/
theorem c8_witness :
    convertTo24 3 none = 3 + 12
    ∧ convertTo24 9 none = 9
    ∧ (∃ t, (parseTimeExpression "call mom at 3" 0).date = some t
        ∧ t % 86400000 / 3600000 = ((3 : Nat) : Int) + 12)
    ∧ (∃ t, (parseTimeExpression "meet at 10" 0).date = some t
        ∧ t % 86400000 / 3600000 = ((10 : Nat) : Int)) :=
  ⟨c8_bare_hour_pm_heuristic.1 3 (by decide) (by decide),
   c8_bare_hour_pm_heuristic.2.1 9 (Or.inr (by decide)),
   c8_bare_hour_pm_heuristic.2.2.1 "call mom at 3" 0
     ⟨"at 3".toList, 3, none, none⟩ (by decide) (by decide) rfl
     (by decide) (by decide) (by decide),
   c8_bare_hour_pm_heuristic.2.2.2 "meet at 10" 0
     ⟨"at 10".toList, 10, none, none⟩ (by decide) (by decide) rfl
     (by decide) (by decide) (by decide)⟩

/-- C10: every non-null date strictly earlier than `now` falls into the
first bucket of `formatReminderTime` and renders as `"in N minutes"` with
`N ≤ 0` (so no past instant is rendered through the today/tomorrow/weekday/
calendar-date buckets), and `formatReminderTime` of null is the empty
string. -/
theorem c10_past_renders_in_minutes (d now : Int) (h : d < now) :
    formatReminderTime (some d) now
        = s!"in {jsRound (d - now) 60000} minutes"
    ∧ jsRound (d - now) 60000 ≤ 0
    ∧ formatReminderTime none now = "" := by
  have hle : jsRound (d - now) 60000 ≤ 0 := by
    unfold jsRound; omega
  have hlt : jsRound (d - now) 60000 < 60 := by omega
  refine ⟨?_, hle, rfl⟩
  unfold formatReminderTime
  dsimp only
  rw [if_pos hlt]

/-- Witness for C10: one minute in the past renders as `"in -1 minutes"`. -/
theorem c10_witness :
    (0 : Int) < 60000
    ∧ (formatReminderTime (some 0) 60000
          = s!"in {jsRound ((0 : Int) - 60000) 60000} minutes"
        ∧ jsRound ((0 : Int) - 60000) 60000 ≤ 0
        ∧ formatReminderTime none 60000 = "") :=
  ⟨by decide, c10_past_renders_in_minutes 0 60000 (by decide)⟩

end TimeParser

namespace AIService

/-- C1 counterexample: for the malformed provider response
`"I could not generate a JSON reply"` (no JSON object present),
`parseAIResponse` does not return null — it returns the conversation-shaped
fallback object `{message: responseText, action: 'conversation', params: {}}`
— and `processWithAI` consequently returns a non-null result, so the keyword
fallback does not run. -/
theorem c1_counterexample :
    parseAIResponse (fun _ => none) "I could not generate a JSON reply"
        = ⟨some "I could not generate a JSON reply", some "conversation", some []⟩
    ∧ processWithAI (fun _ => none) true
        (Except.ok "I could not generate a JSON reply")
        = some ⟨some "I could not generate a JSON reply", some "conversation", [], true⟩ :=
  ⟨by decide, by decide⟩

/-- C1 amended: for every provider response text with no parseable top-level
JSON object (no `{...}` block, or `JSON.parse` failing on the extracted
block), `parseAIResponse` never throws and returns the conversation-shaped
fallback `{message: responseText, action: 'conversation', params: {}}`;
`processWithAI` then returns that object (non-null, `aiProcessed: true`)
rather than null, so the keyword fallback runs only when no provider key is
configured or the provider call itself throws. -/
theorem c1_parse_failure_returns_conversation
    (jp : String → Option AIJson) (text : String)
    (h : extractJsonBlock text = none
       ∨ ∃ b, extractJsonBlock text = some b ∧ jp b = none) :
    parseAIResponse jp text = ⟨some text, some "conversation", some []⟩
    ∧ processWithAI jp true (Except.ok text)
        = some ⟨some text, some "conversation", [], true⟩ := by
  have hp : parseAIResponse jp text
      = ⟨some text, some "conversation", some []⟩ := by
    unfold parseAIResponse
    rcases h with h | ⟨b, hb, hj⟩
    · rw [h]
    · rw [hb]
      dsimp only
      rw [hj]
  refine ⟨hp, ?_⟩
  unfold processWithAI
  dsimp only
  rw [hp]
  rfl

/-- Witness for the amended C1 at the brace-free response `"plain prose"`. -/
theorem c1_witness :
    extractJsonBlock "plain prose" = none
    ∧ (parseAIResponse (fun _ => none) "plain prose"
          = ⟨some "plain prose", some "conversation", some []⟩
        ∧ processWithAI (fun _ => none) true (Except.ok "plain prose")
          = some ⟨some "plain prose", some "conversation", [], true⟩) :=
  ⟨by decide,
   c1_parse_failure_returns_conversation (fun _ => none) "plain prose"
     (Or.inl (by decide))⟩

end AIService

namespace UI

/-- C2: for every AI intent whose mapped plugin's `execute` throws, the
UI dispatcher catches the exception and resolves (never throws) with the
resolver's message; `processInput` appends that message and continues, and
any error that does reach `processInput`'s catch is converted into the
`Sorry, I encountered an error:` display message — a thrown `execute` never
aborts the interpretation pipeline. -/
theorem c2_plugin_throw_caught
    (plugins : String → Option (PluginParams → Except String ExecResult))
    (aiResult : AIResult) (m : Mapping)
    (exec : PluginParams → Except String ExecResult)
    (userInput userLocation err : String)
    (hm : aiResult.action.bind actionMap = some m)
    (hp : plugins m.plugin = some exec)
    (he : exec (buildParams m aiResult userInput userLocation)
        = Except.error err) :
    processWithAI plugins (some aiResult) userInput userLocation
        = Except.ok (some ⟨aiResult.message, aiResult.action, none⟩)
    ∧ (∀ (kw : Except String UIResponse) (msgs : List (Option String)),
        processInput
            (processWithAI plugins (some aiResult) userInput userLocation) kw msgs
          = msgs ++ [aiResult.message])
    ∧ (∀ (e : String) (kw : Except String UIResponse) (msgs : List (Option String)),
        processInput (Except.error e) kw msgs
          = msgs ++ [some ("Sorry, I encountered an error: " ++ e)]) := by
  have h1 : processWithAI plugins (some aiResult) userInput userLocation
      = Except.ok (some ⟨aiResult.message, aiResult.action, none⟩) := by
    unfold processWithAI
    dsimp only
    rw [hm]
    dsimp only
    rw [hp]
    dsimp only
    rw [he]
  refine ⟨h1, ?_, ?_⟩
  · intro kw msgs
    rw [processInput, h1]
    rfl
  · intro e kw msgs
    rfl

/-- Witness for C2: a registry whose `notes` plugin always throws; the
`note_create` intent is dispatched, the throw is caught, and the pipeline
appends the resolver's message. -/
theorem c2_witness :
    processWithAI
        (fun k => if k = "notes" then
            some (fun _ => (Except.error "boom" : Except String ExecResult))
          else none)
        (some ⟨some "Noted!", some "note_create", [("content", "milk")]⟩)
        "note milk" ""
      = Except.ok (some ⟨some "Noted!", some "note_create", none⟩)
    ∧ processInput
        (processWithAI
          (fun k => if k = "notes" then
              some (fun _ => (Except.error "boom" : Except String ExecResult))
            else none)
          (some ⟨some "Noted!", some "note_create", [("content", "milk")]⟩)
          "note milk" "")
        (Except.ok ⟨none, none, none⟩) []
      = [some "Noted!"]
    ∧ processInput (Except.error "kaput") (Except.ok ⟨none, none, none⟩) []
      = [some ("Sorry, I encountered an error: " ++ "kaput")] := by
  have h := c2_plugin_throw_caught
    (fun k => if k = "notes" then
        some (fun _ => (Except.error "boom" : Except String ExecResult))
      else none)
    ⟨some "Noted!", some "note_create", [("content", "milk")]⟩
    ⟨"notes", "create", some "content", false, false⟩
    (fun _ => (Except.error "boom" : Except String ExecResult))
    "note milk" "" "boom" rfl rfl rfl
  exact ⟨h.1, h.2.1 _ _, h.2.2 _ _ _⟩

/-- C9: for every AI resolver result whose action is not in `actionMap` (or
whose mapped plugin key is not in the registry), the dispatcher resolves with
the resolver's own message and action, with no `data` and — since the result
holds for every registry — no plugin `execute` invoked; it is a conversational
response, not an error. -/
theorem c9_unmapped_action_is_conversation
    (plugins : String → Option (PluginParams → Except String ExecResult))
    (aiResult : AIResult) (userInput userLocation : String)
    (h : aiResult.action.bind actionMap = none
       ∨ ∃ m, aiResult.action.bind actionMap = some m ∧ plugins m.plugin = none) :
    processWithAI plugins (some aiResult) userInput userLocation
      = Except.ok (some ⟨aiResult.message, aiResult.action, none⟩) := by
  unfold processWithAI
  dsimp only
  rcases h with h | ⟨m, hm, hp⟩
  · rw [h]
  · rw [hm]
    dsimp only
    rw [hp]

/-- Witness for C9: the `conversation` sentinel action is absent from
`actionMap`, so the resolver's message is returned as-is. -/
theorem c9_witness :
    (some "conversation").bind actionMap = none
    ∧ processWithAI (fun _ => none)
        (some ⟨some "Hello there!", some "conversation", []⟩) "hi" ""
      = Except.ok (some ⟨some "Hello there!", some "conversation", none⟩) :=
  ⟨by decide,
   c9_unmapped_action_is_conversation (fun _ => none)
     ⟨some "Hello there!", some "conversation", []⟩ "hi" "" (Or.inl (by decide))⟩

end UI
